import Mathlib

/-!
# Verification of `rflatten` (src/main.rs)

A shallow embedding of the core of `rflatten`, a tool that flattens a
directory tree by moving every file found below the root into the root
itself, renaming on collision, and then deleting the visited top-level
directories.

Modelling conventions, justified against the source:

* A directory listing is modelled by the inductive `FsTree`: a finite
  sequence of entries, each entry being a regular file or a directory with
  its own listing.  Entries that are neither regular files nor directories
  (symlinks, sockets, ...) are skipped by both Rust traversals
  (`file_type.is_dir()` / `file_type.is_file()` both false), so they are
  omitted from the model.
* An `OsString` name is either valid Unicode (carrying the `String` that
  `to_str` returns) or non-decodable, abstracted by a numeric identifier.
  Byte-level structure of non-decodable names is not modelled; the only
  code paths that look inside a name (`should_include_top_level_dir`,
  `file_stem`/`extension`) are reached with decodable names in every claim
  below, or fall back to the `unwrap_or` defaults.
* String operations are carried out on the underlying character lists
  (`String.data`), which is exact for the byte-level `str::starts_with`,
  and models `str::to_lowercase` character by character (exact on ASCII;
  multi-character Unicode case foldings are not modelled).
* The Rust functions `collect_file_summary_recursive` and
  `flatten_directory_by_traversal_recursive` both begin with
  `if current_depth > max { return }`.  The embedding places this guard at
  each call site (including the top-level call), which is equivalent.
  The test `current == root` is represented by the `atRoot` flag: paths
  strictly grow along the recursion, so `current == root` holds exactly
  for the initial call.
* The filesystem effects of `FlattenPass` are represented in
  `FlattenState`: the set of names existing directly in the root
  (consulted by `dest.exists()` and extended by each successful rename),
  the moved counter, and event logs mirroring the emitted output: one
  `attempts` element per `fs::rename` call, one `moves` element per
  success (the `Moved: src -> dest` line), one `errors` element per
  failure (the `Error moving ...` line).  The outcome of each rename is
  an oracle `renameOk : Nat → Bool` indexed by the attempt number.
* `HashSet<String>` is modelled by a duplicate-free list with guarded
  insertion.
-/

/-- A file-system name as the Rust code sees it (`OsString`): either valid
Unicode, carrying the `String` that `to_str` returns, or a non-decodable
name abstracted by an identifier. -/
inductive FsName where
  | valid (s : String)
  | invalid (id : Nat)
deriving DecidableEq

/-- A directory listing: a finite sequence of entries in directory order.
`fileCons name rest` is a regular-file entry followed by the remaining
entries; `dirCons name children rest` is a subdirectory entry with its own
listing. -/
inductive FsTree where
  | nil : FsTree
  | fileCons (name : FsName) (rest : FsTree) : FsTree
  | dirCons (name : FsName) (children : FsTree) (rest : FsTree) : FsTree
deriving DecidableEq

/-- Concatenation of two directory listings (used to state frame claims
about an entry sitting anywhere in the root listing). -/
def FsTree.append : FsTree → FsTree → FsTree
  | FsTree.nil, t => t
  | FsTree.fileCons n rest, t => FsTree.fileCons n (rest.append t)
  | FsTree.dirCons n c rest, t => FsTree.dirCons n c (rest.append t)

/-- Names of the entries of a listing (files and directories alike); the
initial contents of the root as seen by `dest.exists()`. -/
def tree_names : FsTree → List FsName
  | FsTree.nil => []
  | FsTree.fileCons n rest => n :: tree_names rest
  | FsTree.dirCons n _ rest => n :: tree_names rest

/-- Whether the root listing contains a directory entry with the given
decodable name (the `dir_path.exists() && dir_path.is_dir()` test of the
cleanup loop, which only joins the root with decodable recorded names).
Note the test never looks at the directory's contents. -/
def root_has_dir : FsTree → String → Bool
  | FsTree.nil, _ => false
  | FsTree.fileCons _ rest, d => root_has_dir rest d
  | FsTree.dirCons n _ rest, d =>
    match n with
    | FsName.valid s => decide (s = d) || root_has_dir rest d
    | FsName.invalid _ => root_has_dir rest d

/-- Character-wise lowercasing (the model of `str::to_lowercase`). -/
def lower_chars (l : List Char) : List Char := l.map Char.toLower

/-- `starts_with_pattern` from src/main.rs: case-insensitive test that
`target` starts with `pattern`. -/
def starts_with_pattern (target pattern : String) : Bool :=
  List.isPrefixOf (lower_chars pattern.data) (lower_chars target.data)

/-- `should_include_top_level_dir` from src/main.rs: include patterns take
priority; with include patterns, some pattern must match; with exclude
patterns, no pattern may match; with no filters, everything is included. -/
def should_include_top_level_dir (dir_name : String)
    (inc exc : Option (List String)) : Bool :=
  match inc with
  | some include_patterns =>
    include_patterns.any (fun p => starts_with_pattern dir_name p)
  | none =>
    match exc with
    | some exclude_patterns =>
      !(exclude_patterns.any (fun p => starts_with_pattern dir_name p))
    | none => true

/-- Split a character list at its last `'.'`:
`(stem, some ext)` when a dot occurs, `(whole, none)` otherwise. -/
def splitAtLastDot : List Char → List Char × Option (List Char)
  | [] => ([], none)
  | c :: rest =>
    match splitAtLastDot rest with
    | (st, some ex) => (c :: st, some ex)
    | (_, none) => if c = '.' then ([], some rest) else (c :: rest, none)

/-- `Path::file_stem` / `Path::extension` applied to a single file-name
component, as the conflict loop in
`flatten_directory_by_traversal_recursive` does: Rust splits the name at
its last `'.'`, except that a dot in the leading position never starts an
extension (so `".txt"` has stem `".txt"` and no extension). -/
def split_file_at_dot (name : String) : String × Option String :=
  match name.data with
  | [] => ("", none)
  | c :: rest =>
    match splitAtLastDot rest with
    | (st, some ex) => (⟨c :: st⟩, some ⟨ex⟩)
    | (_, none) => (name, none)

/-- The stem the conflict loop uses:
`file_stem().and_then(to_str).unwrap_or("file")`. -/
def stem_of : FsName → String
  | FsName.valid s => (split_file_at_dot s).1
  | FsName.invalid _ => "file"

/-- The extension string the conflict loop uses:
`extension().and_then(to_str).unwrap_or("")`. -/
def ext_of : FsName → String
  | FsName.valid s => ((split_file_at_dot s).2).getD ""
  | FsName.invalid _ => ""

/-- The candidate name the conflict loop builds for a given counter:
`format!("{0}_{1}", stem, counter)` when the extension string is empty and
`format!("{0}_{1}.{2}", stem, counter, extension)` otherwise (the counter
is rendered in decimal, which is `Nat.repr`). -/
def conflict_name (stem ext : String) (counter : Nat) : String :=
  if ext.isEmpty then stem ++ "_" ++ Nat.repr counter
  else stem ++ "_" ++ Nat.repr counter ++ "." ++ ext

/-- The probing loop `while dest.exists() { .. counter += 1 }`, generic in
the candidate generator.  The Rust loop terminates because the candidate
names are pairwise distinct while the set of existing names is finite; the
embedding makes this explicit with a fuel argument, always called with
fuel `E.length + 1`, which `probe_free_spec` below proves sufficient. -/
def probe_free (E : List FsName) (cand : Nat → String) : Nat → Nat → String
  | 0, counter => cand counter
  | fuel + 1, counter =>
    if FsName.valid (cand counter) ∈ E then probe_free E cand fuel (counter + 1)
    else cand counter

/-- The whole conflict-resolution block of
`flatten_directory_by_traversal_recursive` (lines 271-293): the first
candidate is the file's own name; while the candidate exists in the root,
the next candidate carries the next counter, starting from 1. -/
def resolve_dest (E : List FsName) (fn : FsName) : FsName :=
  if fn ∈ E then
    FsName.valid (probe_free E (conflict_name (stem_of fn) (ext_of fn)) (E.length + 1) 1)
  else fn

/-- `HashSet::insert`, modelled on duplicate-free lists. -/
def set_insert (x : String) (l : List String) : List String :=
  if x ∈ l then l else x :: l

/-- `FileSummary` from src/main.rs. -/
structure FileSummary where
  file_count : Nat
  top_level_dirs : List String
deriving DecidableEq

/-- `current_depth > max` (`false` when no depth bound is configured). -/
def depth_exceeded (maxDepth : Option Nat) (d : Nat) : Bool :=
  match maxDepth with
  | some m => decide (m < d)
  | none => false

/-- The step `collect_file_summary_recursive` (and its flatten twin)
performs on a directory entry seen at `current`: at the root, a
non-decodable name or a name rejected by `should_include_top_level_dir`
skips the whole subtree (`none`); an accepted name becomes the inherited
top-level directory; below the root the inherited name is threaded
through unchanged. -/
def dir_entry_step (atRoot : Bool) (name : FsName) (tld : Option String)
    (inc exc : Option (List String)) : Option (Option String) :=
  if atRoot then
    match name with
    | FsName.valid dir_name =>
      if should_include_top_level_dir dir_name inc exc then some (some dir_name)
      else none
    | FsName.invalid _ => none
  else some tld

/-- `collect_file_summary_recursive` from src/main.rs, as a fold over the
listing of `current`.  A file entry is counted (and its inherited
top-level directory recorded) exactly when its parent is not the root; a
directory entry is descended into when `dir_entry_step` accepts it and the
child depth does not exceed the bound. -/
def collect_summary_go (maxDepth : Option Nat) (inc exc : Option (List String)) :
    Bool → Nat → Option String → FsTree → FileSummary → FileSummary
  | _, _, _, FsTree.nil, summary => summary
  | atRoot, d, tld, FsTree.fileCons _ rest, summary =>
    let summary' :=
      if atRoot then summary
      else
        { file_count := summary.file_count + 1
          top_level_dirs :=
            match tld with
            | some dir => set_insert dir summary.top_level_dirs
            | none => summary.top_level_dirs }
    collect_summary_go maxDepth inc exc atRoot d tld rest summary'
  | atRoot, d, tld, FsTree.dirCons name children rest, summary =>
    match dir_entry_step atRoot name tld inc exc with
    | none => collect_summary_go maxDepth inc exc atRoot d tld rest summary
    | some tld' =>
      let summary' :=
        if depth_exceeded maxDepth (d + 1) then summary
        else collect_summary_go maxDepth inc exc false (d + 1) tld' children summary
      collect_summary_go maxDepth inc exc atRoot d tld rest summary'

/-- `collect_file_summary` from src/main.rs. -/
def collect_file_summary (maxDepth : Option Nat) (inc exc : Option (List String))
    (t : FsTree) : FileSummary :=
  if depth_exceeded maxDepth 0 then ⟨0, []⟩
  else collect_summary_go maxDepth inc exc true 0 none t ⟨0, []⟩

/-- The mutable context of `flatten_directory_by_traversal_recursive`:
the moved counter, the live set of names directly in the root, and the
event logs (see the module docstring). -/
structure FlattenState where
  moved_count : Nat
  root_names : List FsName
  attempts : List FsName
  moves : List (FsName × FsName)
  errors : List FsName
deriving DecidableEq

/-- `flatten_directory_by_traversal_recursive` from src/main.rs.  The
traversal and eligibility logic duplicates `collect_summary_go`, as the
two Rust functions duplicate each other; the per-file action computes the
destination with the conflict loop (`resolve_dest`) against the live root
contents and then attempts `fs::rename`, whose outcome is given by the
`renameOk` oracle: on success the moved counter is incremented and the
destination name starts existing in the root; on failure the error is
logged and the state is otherwise unchanged; either way the traversal
continues with the next entry. -/
def flatten_go (maxDepth : Option Nat) (inc exc : Option (List String))
    (renameOk : Nat → Bool) :
    Bool → Nat → Option String → FsTree → FlattenState → FlattenState
  | _, _, _, FsTree.nil, st => st
  | atRoot, d, tld, FsTree.fileCons fn rest, st =>
    let st' :=
      if atRoot then st
      else
        let dest := resolve_dest st.root_names fn
        if renameOk st.attempts.length then
          { moved_count := st.moved_count + 1
            root_names := dest :: st.root_names
            attempts := st.attempts ++ [fn]
            moves := st.moves ++ [(fn, dest)]
            errors := st.errors }
        else
          { moved_count := st.moved_count
            root_names := st.root_names
            attempts := st.attempts ++ [fn]
            moves := st.moves
            errors := st.errors ++ [fn] }
    flatten_go maxDepth inc exc renameOk atRoot d tld rest st'
  | atRoot, d, tld, FsTree.dirCons name children rest, st =>
    match dir_entry_step atRoot name tld inc exc with
    | none => flatten_go maxDepth inc exc renameOk atRoot d tld rest st
    | some tld' =>
      let st' :=
        if depth_exceeded maxDepth (d + 1) then st
        else flatten_go maxDepth inc exc renameOk false (d + 1) tld' children st
      flatten_go maxDepth inc exc renameOk atRoot d tld rest st'

/-- `flatten_directory_by_traversal` from src/main.rs: the root's own
entries initially exist in the root. -/
def flatten_directory_by_traversal (maxDepth : Option Nat)
    (inc exc : Option (List String)) (renameOk : Nat → Bool) (t : FsTree) :
    FlattenState :=
  if depth_exceeded maxDepth 0 then ⟨0, tree_names t, [], [], []⟩
  else flatten_go maxDepth inc exc renameOk true 0 none t ⟨0, tree_names t, [], [], []⟩

/-- The cleanup loop at the end of `main` (lines 391-399), over the
recorded top-level directory names: a recorded name that still exists as
a directory directly under the root is removed recursively (contents
notwithstanding: `root_has_dir` never inspects them); the `removeOk`
oracle gives the outcome of `fs::remove_dir_all`; a failure is logged and
the loop continues with the remaining names.  Returns the removed names
and the logged failures. -/
def cleanup_go (t : FsTree) (removeOk : String → Bool) :
    List String → List String × List String
  | [] => ([], [])
  | d :: rest =>
    let r := cleanup_go t removeOk rest
    if root_has_dir t d then
      if removeOk d then (d :: r.1, r.2) else (r.1, d :: r.2)
    else r

/-- The observable outcome of one whole run of `main`'s core: the moved
count, the removed directories, and the logged cleanup failures. -/
structure RunResult where
  moved : Nat
  removed : List String
  cleanup_errors : List String
deriving DecidableEq

/-- The core of `main` (lines 337-399): `SummaryPass`, the early return
when nothing was found, `FlattenPass`, then `Cleanup` over exactly the
recorded set.  Confirmation and printing are external collaborators.
After `FlattenPass`, a recorded name still exists as a directory under
the root exactly when the original root listing has a directory entry
with that name: the pass only renames regular files, into destination
names that the conflict loop checked to be free, so it neither creates
nor removes directories, and never makes a file shadow an existing
directory name. -/
def run_rflatten (maxDepth : Option Nat) (inc exc : Option (List String))
    (renameOk : Nat → Bool) (removeOk : String → Bool) (t : FsTree) : RunResult :=
  let summary := collect_file_summary maxDepth inc exc t
  if summary.file_count = 0 then ⟨0, [], []⟩
  else
    let fst := flatten_directory_by_traversal maxDepth inc exc renameOk t
    let cl := cleanup_go t removeOk summary.top_level_dirs
    ⟨fst.moved_count, cl.1, cl.2⟩

/-- Specification-side derived list: the (source names of the) files both
passes visit, in traversal order, for a listing seen at `atRoot` / depth
`d`.  This is not part of the source; the theorems below prove that the
summary count, and the files the flatten pass attempts to move, are
exactly this list. -/
def eligible_files (maxDepth : Option Nat) (inc exc : Option (List String)) :
    Bool → Nat → FsTree → List FsName
  | _, _, FsTree.nil => []
  | atRoot, d, FsTree.fileCons fn rest =>
    (if atRoot then [] else [fn]) ++ eligible_files maxDepth inc exc atRoot d rest
  | atRoot, d, FsTree.dirCons name children rest =>
    (match dir_entry_step atRoot name none inc exc with
     | none => []
     | some _ =>
       if depth_exceeded maxDepth (d + 1) then []
       else eligible_files maxDepth inc exc false (d + 1) children) ++
    eligible_files maxDepth inc exc atRoot d rest

/-- Specification-side: every file of the tree together with the directory
level at which the traversal would discover it (`0` for files directly in
the root listing handed in, `level + 1` inside each directory). -/
def files_with_level : Nat → FsTree → List (Nat × FsName)
  | _, FsTree.nil => []
  | d, FsTree.fileCons fn rest => (d, fn) :: files_with_level d rest
  | d, FsTree.dirCons _ children rest =>
    files_with_level (d + 1) children ++ files_with_level d rest

/-- Whether every directory entry of the root listing has a decodable
name. -/
def root_dirs_decodable : FsTree → Bool
  | FsTree.nil => true
  | FsTree.fileCons _ rest => root_dirs_decodable rest
  | FsTree.dirCons name _ rest =>
    match name with
    | FsName.valid _ => root_dirs_decodable rest
    | FsName.invalid _ => false

/-- Whether the root listing contains no directory entry at all (an
already-flat directory). -/
def root_has_no_dir : FsTree → Bool
  | FsTree.nil => true
  | FsTree.fileCons _ rest => root_has_no_dir rest
  | FsTree.dirCons _ _ _ => false

/-- The name split exactly as claim C1 words it: the extension is the
substring after the final dot, absent only when the name has no dot at
all (no special case for a leading dot). -/
def claimed_split (name : String) : String × Option String :=
  match splitAtLastDot name.data with
  | (st, some ex) => (⟨st⟩, some ⟨ex⟩)
  | (st, none) => (⟨st⟩, none)

/-- The candidate format exactly as claim C1 words it: the suffixed name
keeps the dot and the extension whenever an extension is present. -/
def claimed_candidate (stem : String) (ext : Option String) (counter : Nat) : String :=
  match ext with
  | none => stem ++ "_" ++ Nat.repr counter
  | some e => stem ++ "_" ++ Nat.repr counter ++ "." ++ e

/-- The ConflictResolver exactly as claim C1 words it, differing from
`resolve_dest` only in the name split and candidate format. -/
def claimed_resolve (E : List FsName) (b : String) : FsName :=
  if FsName.valid b ∈ E then
    FsName.valid (probe_free E
      (claimed_candidate (claimed_split b).1 (claimed_split b).2) (E.length + 1) 1)
  else FsName.valid b

/-! ## Decimal rendering: `Nat.repr` is injective

`conflict_name stem ext` produces pairwise distinct candidates because the
decimal rendering of the counter is injective; this section proves it by
reconstructing the number from its digit characters. -/

theorem toDigitsCore_acc (b : Nat) (fuel : Nat) :
    ∀ (n : Nat) (ds : List Char),
      Nat.toDigitsCore b fuel n ds = Nat.toDigitsCore b fuel n [] ++ ds := by
  induction fuel with
  | zero => intro n ds; simp [Nat.toDigitsCore]
  | succ f ih =>
    intro n ds
    simp only [Nat.toDigitsCore]
    by_cases h : n / b = 0
    · simp [h]
    · simp only [h, if_false]
      rw [ih (n / b) (Nat.digitChar (n % b) :: ds), ih (n / b) [Nat.digitChar (n % b)]]
      simp

/-- The numeric value of a decimal digit character. -/
def char_digit_val (c : Char) : Nat := c.toNat - 48

/-- The numeric value of a most-significant-first digit-character list. -/
def chars_val (l : List Char) : Nat :=
  l.foldl (fun acc c => acc * 10 + char_digit_val c) 0

theorem chars_val_append_one (l : List Char) (c : Char) :
    chars_val (l ++ [c]) = chars_val l * 10 + char_digit_val c := by
  simp [chars_val, List.foldl_append]

theorem char_digit_val_digitChar (d : Nat) (h : d < 10) :
    char_digit_val (Nat.digitChar d) = d := by
  interval_cases d <;> rfl

theorem chars_val_toDigitsCore (fuel : Nat) :
    ∀ n : Nat, n < fuel → chars_val (Nat.toDigitsCore 10 fuel n []) = n := by
  induction fuel with
  | zero => intro n h; omega
  | succ f ih =>
    intro n h
    simp only [Nat.toDigitsCore]
    by_cases hz : n / 10 = 0
    · have hn : n < 10 := by omega
      simp only [hz, if_true]
      have : chars_val [Nat.digitChar (n % 10)] = char_digit_val (Nat.digitChar (n % 10)) := by
        simp [chars_val]
      rw [this, char_digit_val_digitChar (n % 10) (Nat.mod_lt n (by omega))]
      omega
    · have hpos : 0 < n := by
        rcases Nat.eq_zero_or_pos n with rfl | hp
        · simp at hz
        · exact hp
      have hlt : n / 10 < n := Nat.div_lt_self hpos (by omega)
      simp only [hz, if_false]
      rw [toDigitsCore_acc, chars_val_append_one, ih (n / 10) (by omega),
        char_digit_val_digitChar (n % 10) (Nat.mod_lt n (by omega))]
      omega

theorem nat_repr_injective : Function.Injective Nat.repr := by
  intro m n h
  have hd : Nat.toDigits 10 m = Nat.toDigits 10 n := by
    have := congrArg String.data h
    simpa [Nat.repr, List.asString] using this
  have hm := chars_val_toDigitsCore (m + 1) m (Nat.lt_succ_self m)
  have hn := chars_val_toDigitsCore (n + 1) n (Nat.lt_succ_self n)
  simp only [Nat.toDigits] at hd
  rw [hd] at hm
  rw [hn] at hm
  exact hm.symm

theorem conflict_name_injective (stem ext : String) :
    Function.Injective (conflict_name stem ext) := by
  intro a b h
  unfold conflict_name at h
  by_cases he : ext.isEmpty = true
  · rw [if_pos he, if_pos he] at h
    have hd := congrArg String.data h
    simp only [String.data_append] at hd
    exact nat_repr_injective (String.ext (List.append_cancel_left hd))
  · rw [if_neg he, if_neg he] at h
    have hd := congrArg String.data h
    simp only [String.data_append] at hd
    have h1 := List.append_cancel_right hd
    have h2 := List.append_cancel_right h1
    exact nat_repr_injective (String.ext (List.append_cancel_left h2))

theorem claimed_candidate_injective (stem : String) (ext : Option String) :
    Function.Injective (claimed_candidate stem ext) := by
  intro a b h
  unfold claimed_candidate at h
  cases ext with
  | none =>
    have hd := congrArg String.data h
    simp only [String.data_append] at hd
    exact nat_repr_injective (String.ext (List.append_cancel_left hd))
  | some e =>
    have hd := congrArg String.data h
    simp only [String.data_append] at hd
    have h1 := List.append_cancel_right hd
    have h2 := List.append_cancel_right h1
    exact nat_repr_injective (String.ext (List.append_cancel_left h2))

/-- Behaviour of the probing loop: as soon as some candidate within the
fuel budget does not exist in the root, the loop stops at the first free
candidate, having seen every earlier candidate exist. -/
theorem probe_free_spec (E : List FsName) (cand : Nat → String) :
    ∀ (fuel c : Nat), (∃ k, k < fuel ∧ FsName.valid (cand (c + k)) ∉ E) →
      ∃ j, j < fuel ∧ probe_free E cand fuel c = cand (c + j) ∧
        FsName.valid (cand (c + j)) ∉ E ∧
        ∀ i, i < j → FsName.valid (cand (c + i)) ∈ E := by
  intro fuel
  induction fuel with
  | zero =>
    intro c h
    obtain ⟨k, hk, -⟩ := h
    omega
  | succ f ih =>
    intro c h
    by_cases hc : FsName.valid (cand c) ∈ E
    · obtain ⟨k, hk, hfree⟩ := h
      have hk0 : k ≠ 0 := by
        rintro rfl
        simp only [Nat.add_zero] at hfree
        exact hfree hc
      obtain ⟨j, hj, heq, hfree', hall⟩ := ih (c + 1)
        ⟨k - 1, by omega, by
          have : c + 1 + (k - 1) = c + k := by omega
          rw [this]; exact hfree⟩
      refine ⟨j + 1, by omega, ?_, ?_, ?_⟩
      · simp only [probe_free, hc, if_true]
        rw [heq]
        congr 1
        omega
      · have : c + (j + 1) = c + 1 + j := by omega
        rw [this]; exact hfree'
      · intro i hi
        cases i with
        | zero => simpa using hc
        | succ i' =>
          have : c + (i' + 1) = c + 1 + i' := by omega
          rw [this]
          exact hall i' (by omega)
    · exact ⟨0, by omega, by simp [probe_free, hc], by simpa using hc, by omega⟩

/-- Pigeonhole: among `E.length + 1` pairwise distinct candidate names, at
least one does not exist in `E`. -/
theorem exists_free_probe (E : List FsName) (cand : Nat → String)
    (hinj : Function.Injective cand) (c : Nat) :
    ∃ k, k < E.length + 1 ∧ FsName.valid (cand (c + k)) ∉ E := by
  by_contra hall
  push_neg at hall
  have hsub : (Finset.range (E.length + 1)).image
      (fun k => FsName.valid (cand (c + k))) ⊆ E.toFinset := by
    intro x hx
    simp only [Finset.mem_image, Finset.mem_range] at hx
    obtain ⟨k, hk, rfl⟩ := hx
    exact List.mem_toFinset.mpr (hall k hk)
  have hcard : ((Finset.range (E.length + 1)).image
      (fun k => FsName.valid (cand (c + k)))).card = E.length + 1 := by
    rw [Finset.card_image_of_injective _
      (fun a b hab => by
        have := hinj (FsName.valid.inj hab)
        omega)]
    simp
  have := Finset.card_le_card hsub
  rw [hcard] at this
  have := le_trans this (List.toFinset_card_le E)
  omega

/-- The conflict loop never returns a name that already exists in the
root: the original name is returned only when it does not exist, and a
probed candidate is returned only when free. -/
theorem resolve_dest_not_mem (E : List FsName) (fn : FsName) :
    resolve_dest E fn ∉ E := by
  unfold resolve_dest
  by_cases h : fn ∈ E
  · rw [if_pos h]
    obtain ⟨k, hk, hfree⟩ :=
      exists_free_probe E (conflict_name (stem_of fn) (ext_of fn))
        (conflict_name_injective _ _) 1
    obtain ⟨j, -, heq, hfree', -⟩ :=
      probe_free_spec E (conflict_name (stem_of fn) (ext_of fn))
        (E.length + 1) 1 ⟨k, hk, hfree⟩
    rw [heq]
    exact hfree'
  · rw [if_neg h]
    exact h

/-! ## Traversal lemmas -/

theorem collect_summary_go_append (maxDepth : Option Nat)
    (inc exc : Option (List String)) (atRoot : Bool) (d : Nat)
    (tld : Option String) (t₁ : FsTree) :
    ∀ (t₂ : FsTree) (s : FileSummary),
      collect_summary_go maxDepth inc exc atRoot d tld (t₁.append t₂) s
        = collect_summary_go maxDepth inc exc atRoot d tld t₂
            (collect_summary_go maxDepth inc exc atRoot d tld t₁ s) := by
  induction t₁ with
  | nil => intro t₂ s; rfl
  | fileCons n rest ih =>
    intro t₂ s
    simp only [FsTree.append, collect_summary_go]
    exact ih t₂ _
  | dirCons n children rest ihc ihr =>
    intro t₂ s
    simp only [FsTree.append, collect_summary_go]
    cases dir_entry_step atRoot n tld inc exc with
    | none => exact ihr t₂ s
    | some tld' => exact ihr t₂ _

theorem flatten_go_append (maxDepth : Option Nat) (inc exc : Option (List String))
    (renameOk : Nat → Bool) (atRoot : Bool) (d : Nat) (tld : Option String)
    (t₁ : FsTree) :
    ∀ (t₂ : FsTree) (st : FlattenState),
      flatten_go maxDepth inc exc renameOk atRoot d tld (t₁.append t₂) st
        = flatten_go maxDepth inc exc renameOk atRoot d tld t₂
            (flatten_go maxDepth inc exc renameOk atRoot d tld t₁ st) := by
  induction t₁ with
  | nil => intro t₂ st; rfl
  | fileCons n rest ih =>
    intro t₂ st
    simp only [FsTree.append, flatten_go]
    exact ih t₂ _
  | dirCons n children rest ihc ihr =>
    intro t₂ st
    simp only [FsTree.append, flatten_go]
    cases dir_entry_step atRoot n tld inc exc with
    | none => exact ihr t₂ st
    | some tld' => exact ihr t₂ _

theorem eligible_files_append (maxDepth : Option Nat)
    (inc exc : Option (List String)) (atRoot : Bool) (d : Nat) (t₁ : FsTree) :
    ∀ t₂ : FsTree,
      eligible_files maxDepth inc exc atRoot d (t₁.append t₂)
        = eligible_files maxDepth inc exc atRoot d t₁ ++
          eligible_files maxDepth inc exc atRoot d t₂ := by
  induction t₁ with
  | nil => intro t₂; rfl
  | fileCons n rest ih =>
    intro t₂
    simp only [FsTree.append, eligible_files, ih, List.append_assoc]
  | dirCons n children rest ihc ihr =>
    intro t₂
    simp only [FsTree.append, eligible_files, ihr, List.append_assoc]

/-- The summary pass counts exactly the specification-side eligible files,
whatever the inherited top-level name and the incoming accumulator. -/
theorem collect_summary_go_count (maxDepth : Option Nat)
    (inc exc : Option (List String)) :
    ∀ (t : FsTree) (atRoot : Bool) (d : Nat) (tld : Option String)
      (s : FileSummary),
      (collect_summary_go maxDepth inc exc atRoot d tld t s).file_count
        = s.file_count + (eligible_files maxDepth inc exc atRoot d t).length := by
  intro t
  induction t with
  | nil => intro atRoot d tld s; simp [collect_summary_go, eligible_files]
  | fileCons n rest ih =>
    intro atRoot d tld s
    cases atRoot with
    | true => simp [collect_summary_go, eligible_files, ih]
    | false =>
      cases tld with
      | none => simp [collect_summary_go, eligible_files, ih]; omega
      | some dir => simp [collect_summary_go, eligible_files, ih]; omega
  | dirCons n children rest ihc ihr =>
    intro atRoot d tld s
    cases atRoot with
    | true =>
      cases n with
      | valid dn =>
        by_cases hin : should_include_top_level_dir dn inc exc = true
        · by_cases hdeep : depth_exceeded maxDepth (d + 1) = true
          · simp [collect_summary_go, eligible_files, dir_entry_step, hin, hdeep, ihr]
          · simp only [Bool.not_eq_true] at hdeep
            simp [collect_summary_go, eligible_files, dir_entry_step, hin, hdeep, ihr, ihc]
            omega
        · simp only [Bool.not_eq_true] at hin
          simp [collect_summary_go, eligible_files, dir_entry_step, hin, ihr]
      | invalid i =>
        simp [collect_summary_go, eligible_files, dir_entry_step, ihr]
    | false =>
      by_cases hdeep : depth_exceeded maxDepth (d + 1) = true
      · simp [collect_summary_go, eligible_files, dir_entry_step, hdeep, ihr]
      · simp only [Bool.not_eq_true] at hdeep
        simp [collect_summary_go, eligible_files, dir_entry_step, hdeep, ihr, ihc]
        omega

/-- The flatten pass attempts to move exactly the specification-side
eligible files, in traversal order, regardless of the rename outcomes and
of the current root contents. -/
theorem flatten_go_attempts (maxDepth : Option Nat)
    (inc exc : Option (List String)) (renameOk : Nat → Bool) :
    ∀ (t : FsTree) (atRoot : Bool) (d : Nat) (tld : Option String)
      (st : FlattenState),
      (flatten_go maxDepth inc exc renameOk atRoot d tld t st).attempts
        = st.attempts ++ eligible_files maxDepth inc exc atRoot d t := by
  intro t
  induction t with
  | nil => intro atRoot d tld st; simp [flatten_go, eligible_files]
  | fileCons n rest ih =>
    intro atRoot d tld st
    cases atRoot with
    | true => simp [flatten_go, eligible_files, ih]
    | false =>
      by_cases hok : renameOk st.attempts.length = true
      · simp [flatten_go, eligible_files, ih, hok]
      · simp only [Bool.not_eq_true] at hok
        simp [flatten_go, eligible_files, ih, hok]
  | dirCons n children rest ihc ihr =>
    intro atRoot d tld st
    cases atRoot with
    | true =>
      cases n with
      | valid dn =>
        by_cases hin : should_include_top_level_dir dn inc exc = true
        · by_cases hdeep : depth_exceeded maxDepth (d + 1) = true
          · simp [flatten_go, eligible_files, dir_entry_step, hin, hdeep, ihr]
          · simp only [Bool.not_eq_true] at hdeep
            simp [flatten_go, eligible_files, dir_entry_step, hin, hdeep, ihr, ihc]
        · simp only [Bool.not_eq_true] at hin
          simp [flatten_go, eligible_files, dir_entry_step, hin, ihr]
      | invalid i =>
        simp [flatten_go, eligible_files, dir_entry_step, ihr]
    | false =>
      by_cases hdeep : depth_exceeded maxDepth (d + 1) = true
      · simp [flatten_go, eligible_files, dir_entry_step, hdeep, ihr]
      · simp only [Bool.not_eq_true] at hdeep
        simp [flatten_go, eligible_files, dir_entry_step, hdeep, ihr, ihc]

/-- Specification-side: the sources of the failed rename attempts, when
the oracle is consulted starting at the given attempt index. -/
def failed_of (ok : Nat → Bool) : Nat → List FsName → List FsName
  | _, [] => []
  | start, fn :: rest =>
    (if ok start then [] else [fn]) ++ failed_of ok (start + 1) rest

theorem failed_of_append (ok : Nat → Bool) :
    ∀ (a b : List FsName) (start : Nat),
      failed_of ok start (a ++ b)
        = failed_of ok start a ++ failed_of ok (start + a.length) b := by
  intro a
  induction a with
  | nil => intro b start; simp [failed_of]
  | cons fn rest ih =>
    intro b start
    simp only [List.cons_append, failed_of, List.length_cons, List.append_eq]
    rw [ih b (start + 1)]
    have : start + (rest.length + 1) = start + 1 + rest.length := by omega
    rw [this, List.append_assoc]

/-- The running relation between the moved counter, the error log and the
attempt log: the counter counts the successful attempt indices and the
error log holds the sources of the failed attempts. -/
theorem flatten_go_log (maxDepth : Option Nat) (inc exc : Option (List String))
    (renameOk : Nat → Bool) :
    ∀ (t : FsTree) (atRoot : Bool) (d : Nat) (tld : Option String)
      (st : FlattenState),
      st.moved_count
          = ((List.range st.attempts.length).filter (fun i => renameOk i)).length →
      st.errors = failed_of renameOk 0 st.attempts →
      (flatten_go maxDepth inc exc renameOk atRoot d tld t st).moved_count
          = ((List.range
                (flatten_go maxDepth inc exc renameOk atRoot d tld t st).attempts.length).filter
              (fun i => renameOk i)).length ∧
        (flatten_go maxDepth inc exc renameOk atRoot d tld t st).errors
          = failed_of renameOk 0
              (flatten_go maxDepth inc exc renameOk atRoot d tld t st).attempts := by
  intro t
  induction t with
  | nil => intro atRoot d tld st hm he; exact ⟨hm, he⟩
  | fileCons n rest ih =>
    intro atRoot d tld st hm he
    cases atRoot with
    | true => exact ih true d tld st hm he
    | false =>
      by_cases hok : renameOk st.attempts.length = true
      · refine ih false d tld _ ?_ ?_
        · simp only [flatten_go, Bool.false_eq_true, if_false, hok, if_true,
            List.length_append, List.length_cons, List.length_nil]
          rw [List.range_succ, List.filter_append, List.length_append]
          simp [hok, hm]
        · simp only [flatten_go, Bool.false_eq_true, if_false, hok, if_true]
          rw [failed_of_append, he]
          simp [failed_of, hok]
      · simp only [Bool.not_eq_true] at hok
        refine ih false d tld _ ?_ ?_
        · simp only [flatten_go, Bool.false_eq_true, if_false, hok,
            Bool.false_eq_true, if_false, List.length_append, List.length_cons,
            List.length_nil]
          rw [List.range_succ, List.filter_append, List.length_append]
          simp [hok, hm]
        · simp only [flatten_go, Bool.false_eq_true, if_false, hok,
            Bool.false_eq_true, if_false]
          rw [failed_of_append, he]
          simp [failed_of, hok]
  | dirCons n children rest ihc ihr =>
    intro atRoot d tld st hm he
    simp only [flatten_go]
    cases hstep : dir_entry_step atRoot n tld inc exc with
    | none => exact ihr atRoot d tld st hm he
    | some tld' =>
      by_cases hdeep : depth_exceeded maxDepth (d + 1) = true
      · simp only [hdeep, if_true]
        exact ihr atRoot d tld st hm he
      · simp only [Bool.not_eq_true] at hdeep
        simp only [hdeep, Bool.false_eq_true, if_false]
        obtain ⟨hm', he'⟩ := ihc false (d + 1) tld' st hm he
        exact ihr atRoot d tld _ hm' he'

/-- Names existing in the root are never removed by the flatten pass. -/
theorem flatten_go_root_names_mono (maxDepth : Option Nat)
    (inc exc : Option (List String)) (renameOk : Nat → Bool) :
    ∀ (t : FsTree) (atRoot : Bool) (d : Nat) (tld : Option String)
      (st : FlattenState) (x : FsName), x ∈ st.root_names →
      x ∈ (flatten_go maxDepth inc exc renameOk atRoot d tld t st).root_names := by
  intro t
  induction t with
  | nil => intro atRoot d tld st x hx; exact hx
  | fileCons n rest ih =>
    intro atRoot d tld st x hx
    cases atRoot with
    | true => exact ih true d tld st x hx
    | false =>
      by_cases hok : renameOk st.attempts.length = true
      · simp only [flatten_go, Bool.false_eq_true, if_false, hok, if_true]
        exact ih false d tld _ x (List.mem_cons_of_mem _ hx)
      · simp only [Bool.not_eq_true] at hok
        simp only [flatten_go, Bool.false_eq_true, if_false, hok]
        exact ih false d tld _ x hx
  | dirCons n children rest ihc ihr =>
    intro atRoot d tld st x hx
    simp only [flatten_go]
    cases dir_entry_step atRoot n tld inc exc with
    | none => exact ihr atRoot d tld st x hx
    | some tld' =>
      by_cases hdeep : depth_exceeded maxDepth (d + 1) = true
      · simp only [hdeep, if_true]
        exact ihr atRoot d tld st x hx
      · simp only [Bool.not_eq_true] at hdeep
        simp only [hdeep, Bool.false_eq_true, if_false]
        exact ihr atRoot d tld _ x (ihc false (d + 1) tld' st x hx)

/-- A name existing in the root from the start is never the destination of
any successful move: every probed destination is fresh at its time, and
root contents only grow. -/
theorem flatten_go_moves_avoid (maxDepth : Option Nat)
    (inc exc : Option (List String)) (renameOk : Nat → Bool) (x : FsName) :
    ∀ (t : FsTree) (atRoot : Bool) (d : Nat) (tld : Option String)
      (st : FlattenState), x ∈ st.root_names →
      (∀ p ∈ st.moves, p.2 ≠ x) →
      ∀ p ∈ (flatten_go maxDepth inc exc renameOk atRoot d tld t st).moves,
        p.2 ≠ x := by
  intro t
  induction t with
  | nil => intro atRoot d tld st hx hprev; exact hprev
  | fileCons n rest ih =>
    intro atRoot d tld st hx hprev
    cases atRoot with
    | true => exact ih true d tld st hx hprev
    | false =>
      by_cases hok : renameOk st.attempts.length = true
      · simp only [flatten_go, Bool.false_eq_true, if_false, hok, if_true]
        refine ih false d tld _ (List.mem_cons_of_mem _ hx) ?_
        intro p hp
        rcases List.mem_append.mp hp with hp | hp
        · exact hprev p hp
        · have hpe : p = (n, resolve_dest st.root_names n) := by simpa using hp
          subst hpe
          intro hcontra
          apply resolve_dest_not_mem st.root_names n
          have hre : resolve_dest st.root_names n = x := hcontra
          rw [hre]
          exact hx
      · simp only [Bool.not_eq_true] at hok
        simp only [flatten_go, Bool.false_eq_true, if_false, hok]
        exact ih false d tld _ hx hprev
  | dirCons n children rest ihc ihr =>
    intro atRoot d tld st hx hprev
    simp only [flatten_go]
    cases dir_entry_step atRoot n tld inc exc with
    | none => exact ihr atRoot d tld st hx hprev
    | some tld' =>
      by_cases hdeep : depth_exceeded maxDepth (d + 1) = true
      · simp only [hdeep, if_true]
        exact ihr atRoot d tld st hx hprev
      · simp only [Bool.not_eq_true] at hdeep
        simp only [hdeep, Bool.false_eq_true, if_false]
        exact ihr atRoot d tld _
          (flatten_go_root_names_mono maxDepth inc exc renameOk children false
            (d + 1) tld' st x hx)
          (ihc false (d + 1) tld' st hx hprev)

/-- The summary count never decreases along the fold. -/
theorem collect_summary_go_count_mono (maxDepth : Option Nat)
    (inc exc : Option (List String)) :
    ∀ (t : FsTree) (atRoot : Bool) (d : Nat) (tld : Option String)
      (s : FileSummary),
      s.file_count ≤ (collect_summary_go maxDepth inc exc atRoot d tld t s).file_count := by
  intro t atRoot d tld s
  rw [collect_summary_go_count]
  omega

/-- If the fold added nothing to the count, it added nothing to the
top-level-directory set either: every insertion is paired with a count
increment. -/
theorem collect_summary_go_dirs_of_count_eq (maxDepth : Option Nat)
    (inc exc : Option (List String)) :
    ∀ (t : FsTree) (atRoot : Bool) (d : Nat) (tld : Option String)
      (s : FileSummary),
      (collect_summary_go maxDepth inc exc atRoot d tld t s).file_count
        = s.file_count →
      (collect_summary_go maxDepth inc exc atRoot d tld t s).top_level_dirs
        = s.top_level_dirs := by
  intro t
  induction t with
  | nil => intro atRoot d tld s h; rfl
  | fileCons n rest ih =>
    intro atRoot d tld s h
    cases atRoot with
    | true => exact ih true d tld s h
    | false =>
      exfalso
      cases tld with
      | none =>
        have h' : (collect_summary_go maxDepth inc exc false d none rest
            { file_count := s.file_count + 1
              top_level_dirs := s.top_level_dirs }).file_count = s.file_count := h
        rw [collect_summary_go_count] at h'
        have h2 : s.file_count + 1
            + (eligible_files maxDepth inc exc false d rest).length = s.file_count := h'
        omega
      | some dir =>
        have h' : (collect_summary_go maxDepth inc exc false d (some dir) rest
            { file_count := s.file_count + 1
              top_level_dirs := set_insert dir s.top_level_dirs }).file_count
            = s.file_count := h
        rw [collect_summary_go_count] at h'
        have h2 : s.file_count + 1
            + (eligible_files maxDepth inc exc false d rest).length = s.file_count := h'
        omega
  | dirCons n children rest ihc ihr =>
    intro atRoot d tld s h
    simp only [collect_summary_go] at h ⊢
    cases hstep : dir_entry_step atRoot n tld inc exc with
    | none =>
      simp only [hstep] at h ⊢
      exact ihr atRoot d tld s h
    | some tld' =>
      simp only [hstep] at h ⊢
      by_cases hdeep : depth_exceeded maxDepth (d + 1) = true
      · simp only [hdeep, if_true] at h ⊢
        exact ihr atRoot d tld s h
      · simp only [Bool.not_eq_true] at hdeep
        simp only [hdeep, Bool.false_eq_true, if_false] at h ⊢
        have hc1 := collect_summary_go_count_mono maxDepth inc exc children false
          (d + 1) tld' s
        have hc2 := collect_summary_go_count_mono maxDepth inc exc rest atRoot d tld
          (collect_summary_go maxDepth inc exc false (d + 1) tld' children s)
        have hinner :
            (collect_summary_go maxDepth inc exc false (d + 1) tld' children s).file_count
              = s.file_count := by omega
        rw [ihr atRoot d tld _ (by rw [hinner]; exact h),
          ihc false (d + 1) tld' s hinner]

theorem depth_exceeded_zero (maxDepth : Option Nat) :
    depth_exceeded maxDepth 0 = false := by
  cases maxDepth <;> simp [depth_exceeded]

/-- A top-level directory rejected by the filter contributes nothing to the
summary fold. -/
theorem collect_summary_go_skip (maxDepth : Option Nat)
    (inc exc : Option (List String)) (d : Nat) (tld : Option String)
    (n : String) (children rest : FsTree) (s : FileSummary)
    (hn : should_include_top_level_dir n inc exc = false) :
    collect_summary_go maxDepth inc exc true d tld
        (FsTree.dirCons (FsName.valid n) children rest) s
      = collect_summary_go maxDepth inc exc true d tld rest s := by
  simp [collect_summary_go, dir_entry_step, hn]

/-- A top-level directory with a non-decodable name contributes nothing to
the summary fold. -/
theorem collect_summary_go_skip_invalid (maxDepth : Option Nat)
    (inc exc : Option (List String)) (d : Nat) (tld : Option String)
    (i : Nat) (children rest : FsTree) (s : FileSummary) :
    collect_summary_go maxDepth inc exc true d tld
        (FsTree.dirCons (FsName.invalid i) children rest) s
      = collect_summary_go maxDepth inc exc true d tld rest s := by
  simp [collect_summary_go, dir_entry_step]

theorem flatten_go_skip (maxDepth : Option Nat) (inc exc : Option (List String))
    (renameOk : Nat → Bool) (d : Nat) (tld : Option String)
    (n : String) (children rest : FsTree) (st : FlattenState)
    (hn : should_include_top_level_dir n inc exc = false) :
    flatten_go maxDepth inc exc renameOk true d tld
        (FsTree.dirCons (FsName.valid n) children rest) st
      = flatten_go maxDepth inc exc renameOk true d tld rest st := by
  simp [flatten_go, dir_entry_step, hn]

theorem flatten_go_skip_invalid (maxDepth : Option Nat)
    (inc exc : Option (List String)) (renameOk : Nat → Bool) (d : Nat)
    (tld : Option String) (i : Nat) (children rest : FsTree) (st : FlattenState) :
    flatten_go maxDepth inc exc renameOk true d tld
        (FsTree.dirCons (FsName.invalid i) children rest) st
      = flatten_go maxDepth inc exc renameOk true d tld rest st := by
  simp [flatten_go, dir_entry_step]

theorem eligible_files_skip (maxDepth : Option Nat)
    (inc exc : Option (List String)) (d : Nat) (n : String)
    (children rest : FsTree)
    (hn : should_include_top_level_dir n inc exc = false) :
    eligible_files maxDepth inc exc true d
        (FsTree.dirCons (FsName.valid n) children rest)
      = eligible_files maxDepth inc exc true d rest := by
  simp [eligible_files, dir_entry_step, hn]

theorem eligible_files_skip_invalid (maxDepth : Option Nat)
    (inc exc : Option (List String)) (d : Nat) (i : Nat)
    (children rest : FsTree) :
    eligible_files maxDepth inc exc true d
        (FsTree.dirCons (FsName.invalid i) children rest)
      = eligible_files maxDepth inc exc true d rest := by
  simp [eligible_files, dir_entry_step]

/-! ## Depth characterization (no filters configured) -/

theorem files_with_level_ge :
    ∀ (t : FsTree) (d : Nat), ∀ p ∈ files_with_level d t, d ≤ p.1 := by
  intro t
  induction t with
  | nil => intro d p hp; simp [files_with_level] at hp
  | fileCons n rest ih =>
    intro d p hp
    rcases (by simpa [files_with_level] using hp :
        p = (d, n) ∨ p ∈ files_with_level d rest) with h | h
    · subst h; exact le_refl d
    · exact ih d p h
  | dirCons n children rest ihc ihr =>
    intro d p hp
    rcases (by simpa [files_with_level] using hp :
        p ∈ files_with_level (d + 1) children ∨ p ∈ files_with_level d rest) with h | h
    · exact le_trans (Nat.le_succ d) (ihc (d + 1) p h)
    · exact ihr d p h

/-- Below the root, the eligible files are exactly the files whose
discovery level is within the bound (the file's own level is already
known to be within the bound once its directory was entered). -/
theorem eligible_below (D : Nat) :
    ∀ (t : FsTree) (d : Nat), d ≤ D →
      eligible_files (some D) none none false d t
        = ((files_with_level d t).filter (fun p => decide (p.1 ≤ D))).map
            Prod.snd := by
  intro t
  induction t with
  | nil => intro d hd; rfl
  | fileCons n rest ih =>
    intro d hd
    simp [eligible_files, files_with_level, List.filter_cons, hd, ih d hd]
  | dirCons n children rest ihc ihr =>
    intro d hd
    by_cases hdeep : d + 1 ≤ D
    · have : depth_exceeded (some D) (d + 1) = false := by
        simp [depth_exceeded]; omega
      simp [eligible_files, files_with_level, dir_entry_step, this,
        List.filter_append, ihc (d + 1) hdeep, ihr d hd]
    · have hexc : depth_exceeded (some D) (d + 1) = true := by
        simp [depth_exceeded]; omega
      have hnil :
          (files_with_level (d + 1) children).filter (fun p => decide (p.1 ≤ D))
            = [] := by
        rw [List.filter_eq_nil_iff]
        intro p hp
        have := files_with_level_ge children (d + 1) p hp
        simp only [decide_eq_true_eq]
        omega
      simp [eligible_files, files_with_level, dir_entry_step, hexc,
        List.filter_append, hnil, ihr d hd]

/-- At the root, when every top-level directory name is decodable and no
filters are configured, the eligible files are exactly the files strictly
below the root whose discovery level is within the bound. -/
theorem eligible_root (D : Nat) :
    ∀ t : FsTree, root_dirs_decodable t = true →
      eligible_files (some D) none none true 0 t
        = ((files_with_level 0 t).filter
            (fun p => decide (1 ≤ p.1 ∧ p.1 ≤ D))).map Prod.snd := by
  intro t
  induction t with
  | nil => intro hval; rfl
  | fileCons n rest ih =>
    intro hval
    simp only [root_dirs_decodable] at hval
    simp [eligible_files, files_with_level, List.filter_cons, ih hval]
  | dirCons n children rest ihc ihr =>
    intro hval
    cases n with
    | invalid i => simp [root_dirs_decodable] at hval
    | valid nm =>
      simp only [root_dirs_decodable] at hval
      by_cases hD : 1 ≤ D
      · have hdeep : depth_exceeded (some D) 1 = false := by
          simp [depth_exceeded]; omega
        have hfc :
            (files_with_level 1 children).filter
                (fun p => decide (1 ≤ p.1 ∧ p.1 ≤ D))
              = (files_with_level 1 children).filter (fun p => decide (p.1 ≤ D)) := by
          apply List.filter_congr
          intro p hp
          have := files_with_level_ge children 1 p hp
          simp only [decide_eq_true_eq, decide_eq_decide]
          omega
        simp only [eligible_files, files_with_level, dir_entry_step,
          should_include_top_level_dir, hdeep, Bool.false_eq_true, if_true,
          if_false, List.filter_append, List.map_append,
          eligible_below D children 1 hD, ihr hval]
        apply congrArg (fun l => l ++ List.map Prod.snd
          (List.filter (fun p => decide (1 ≤ p.1 ∧ p.1 ≤ D)) (files_with_level 0 rest)))
        apply congrArg
        apply List.filter_congr
        intro p hp
        have h1 : (1 : Nat) ≤ p.1 := files_with_level_ge children 1 p hp
        simp [h1]
      · have hD0 : D = 0 := by omega
        subst hD0
        have hdeep : depth_exceeded (some 0) 1 = true := by
          simp [depth_exceeded]
        have hnil :
            (files_with_level 1 children).filter
                (fun p => decide (1 ≤ p.1 ∧ p.1 ≤ 0)) = [] := by
          rw [List.filter_eq_nil_iff]
          intro p hp
          simp only [decide_eq_true_eq]
          omega
        simp [eligible_files, files_with_level, dir_entry_step,
          should_include_top_level_dir, hdeep, List.filter_append, hnil,
          ihr hval]
        intro a b hmem h1
        omega

/-- With a depth bound of zero no file is ever eligible, whatever the
filters: the subtree of every top-level directory is cut off before any
file below the root is reached. -/
theorem eligible_root_zero (inc exc : Option (List String)) :
    ∀ t : FsTree, eligible_files (some 0) inc exc true 0 t = [] := by
  intro t
  induction t with
  | nil => rfl
  | fileCons n rest ih => simp [eligible_files, ih]
  | dirCons n children rest ihc ihr =>
    have hdeep : depth_exceeded (some 0) 1 = true := by simp [depth_exceeded]
    cases hstep : dir_entry_step true n none inc exc with
    | none => simp [eligible_files, hstep, ihr]
    | some tld' => simp [eligible_files, hstep, hdeep, ihr]

/-- An already-flat root listing has no eligible files. -/
theorem eligible_files_root_no_dir (maxDepth : Option Nat)
    (inc exc : Option (List String)) (d : Nat) :
    ∀ t : FsTree, root_has_no_dir t = true →
      eligible_files maxDepth inc exc true d t = [] := by
  intro t
  induction t with
  | nil => intro h; rfl
  | fileCons n rest ih =>
    intro h
    simp only [root_has_no_dir] at h
    simp [eligible_files, ih h]
  | dirCons n children rest ihc ihr =>
    intro h
    simp [root_has_no_dir] at h

/-- Closed form of the cleanup loop: the removed names are the recorded
names that still exist as directories under the root and whose removal
succeeds; the reported failures are those whose removal fails; recorded
names are processed independently of one another. -/
theorem cleanup_go_spec (t : FsTree) (removeOk : String → Bool) :
    ∀ dirs : List String,
      cleanup_go t removeOk dirs
        = (dirs.filter (fun d => root_has_dir t d && removeOk d),
           dirs.filter (fun d => root_has_dir t d && !removeOk d)) := by
  intro dirs
  induction dirs with
  | nil => rfl
  | cons d rest ih =>
    simp only [cleanup_go, ih, List.filter_cons]
    by_cases h1 : root_has_dir t d = true
    · by_cases h2 : removeOk d = true
      · simp [h1, h2]
      · simp only [Bool.not_eq_true] at h2
        simp [h1, h2]
    · simp only [Bool.not_eq_true] at h1
      simp [h1]

/-- When the summary pass found nothing, it recorded no top-level
directory either. -/
theorem collect_file_summary_dirs_of_count_zero (maxDepth : Option Nat)
    (inc exc : Option (List String)) (t : FsTree)
    (h : (collect_file_summary maxDepth inc exc t).file_count = 0) :
    (collect_file_summary maxDepth inc exc t).top_level_dirs = [] := by
  unfold collect_file_summary at h ⊢
  rw [depth_exceeded_zero] at h ⊢
  simp only [Bool.false_eq_true, if_false] at h ⊢
  exact collect_summary_go_dirs_of_count_eq maxDepth inc exc t true 0 none ⟨0, []⟩ h

theorem tree_names_append :
    ∀ t₁ t₂ : FsTree, tree_names (t₁.append t₂) = tree_names t₁ ++ tree_names t₂ := by
  intro t₁ t₂
  induction t₁ with
  | nil => rfl
  | fileCons n rest ih => simp [FsTree.append, tree_names, ih]
  | dirCons n c rest ihc ihr => simp [FsTree.append, tree_names, ihr]

theorem root_has_dir_append :
    ∀ (t₁ t₂ : FsTree) (d : String),
      root_has_dir (t₁.append t₂) d = (root_has_dir t₁ d || root_has_dir t₂ d) := by
  intro t₁ t₂ d
  induction t₁ with
  | nil => simp [FsTree.append, root_has_dir]
  | fileCons n rest ih => simp [FsTree.append, root_has_dir, ih]
  | dirCons n c rest ihc ihr =>
    cases n with
    | valid s => simp [FsTree.append, root_has_dir, ihr, Bool.or_assoc]
    | invalid i => simp [FsTree.append, root_has_dir, ihr]

/-! ## Claims -/

/-- C1, counterexample: the claim describes the split as `extension =
substring after the final dot, absent only when there is no dot`, but the
code uses `Path::file_stem` / `Path::extension`, which treat a leading dot
as not starting an extension, and drops an empty extension.  With
`.txt` already existing in the root, the claim predicts the resolved name
`_1.txt`, while the code produces `.txt_1`; with `foo.` existing, the
claim predicts `foo_1.` while the code produces `foo_1`. -/
theorem C1_counterexample :
    claimed_split ".txt" = ("", some "txt") ∧
    claimed_resolve [FsName.valid ".txt"] ".txt" = FsName.valid "_1.txt" ∧
    resolve_dest [FsName.valid ".txt"] (FsName.valid ".txt")
      = FsName.valid ".txt_1" ∧
    FsName.valid ".txt_1" ≠ FsName.valid "_1.txt" ∧
    claimed_resolve [FsName.valid "foo."] "foo." = FsName.valid "foo_1." ∧
    resolve_dest [FsName.valid "foo."] (FsName.valid "foo.")
      = FsName.valid "foo_1" ∧
    FsName.valid "foo_1" ≠ FsName.valid "foo_1." := by decide

/-- C1, amended: for every desired base name, the name is split into stem
and extension by the platform rule (the extension is the substring after
the final dot, except that a dot in the leading position never starts an
extension, so a hidden-file name has no extension); the first candidate is
the base name itself, and while the candidate exists the next candidate is
`stem_counter.ext` (or `stem_counter` when the extension is absent or
empty) with the counter incremented from 1; the first non-existing
candidate is returned.  In particular, when `test.txt` and `test_1.txt`
both exist, base name `test.txt` resolves to `test_2.txt`. -/
theorem C1_conflict_resolver (E : List FsName) (b : String) :
    (FsName.valid b ∉ E → resolve_dest E (FsName.valid b) = FsName.valid b) ∧
    (FsName.valid b ∈ E →
      ∃ k, 1 ≤ k ∧
        resolve_dest E (FsName.valid b)
          = FsName.valid
              (conflict_name (stem_of (FsName.valid b)) (ext_of (FsName.valid b)) k) ∧
        FsName.valid
            (conflict_name (stem_of (FsName.valid b)) (ext_of (FsName.valid b)) k)
          ∉ E ∧
        ∀ j, 1 ≤ j → j < k →
          FsName.valid
              (conflict_name (stem_of (FsName.valid b)) (ext_of (FsName.valid b)) j)
            ∈ E) ∧
    resolve_dest [FsName.valid "test.txt", FsName.valid "test_1.txt"]
        (FsName.valid "test.txt")
      = FsName.valid "test_2.txt" := by
  refine ⟨?_, ?_, by decide⟩
  · intro h
    unfold resolve_dest
    rw [if_neg h]
  · intro h
    obtain ⟨k0, hk0, hfree0⟩ :=
      exists_free_probe E
        (conflict_name (stem_of (FsName.valid b)) (ext_of (FsName.valid b)))
        (conflict_name_injective _ _) 1
    obtain ⟨j, hj, heq, hfree, hall⟩ :=
      probe_free_spec E
        (conflict_name (stem_of (FsName.valid b)) (ext_of (FsName.valid b)))
        (E.length + 1) 1 ⟨k0, hk0, hfree0⟩
    refine ⟨1 + j, by omega, ?_, hfree, ?_⟩
    · unfold resolve_dest
      rw [if_pos h, heq]
    · intro j' h1 h2
      have := hall (j' - 1) (by omega)
      have harith : 1 + (j' - 1) = j' := by omega
      rwa [harith] at this

/-- C1, witness: the amended characterization applied to the concrete
collision `test.txt` against a root already holding `test.txt` and
`test_1.txt`. -/
theorem C1_conflict_resolver_witness :
    FsName.valid "test.txt"
        ∈ [FsName.valid "test.txt", FsName.valid "test_1.txt"] ∧
    (∃ k, 1 ≤ k ∧
      resolve_dest [FsName.valid "test.txt", FsName.valid "test_1.txt"]
          (FsName.valid "test.txt")
        = FsName.valid
            (conflict_name (stem_of (FsName.valid "test.txt"))
              (ext_of (FsName.valid "test.txt")) k) ∧
      FsName.valid
          (conflict_name (stem_of (FsName.valid "test.txt"))
            (ext_of (FsName.valid "test.txt")) k)
        ∉ [FsName.valid "test.txt", FsName.valid "test_1.txt"] ∧
      ∀ j, 1 ≤ j → j < k →
        FsName.valid
            (conflict_name (stem_of (FsName.valid "test.txt"))
              (ext_of (FsName.valid "test.txt")) j)
          ∈ [FsName.valid "test.txt", FsName.valid "test_1.txt"]) :=
  ⟨by decide,
    (C1_conflict_resolver [FsName.valid "test.txt", FsName.valid "test_1.txt"]
      "test.txt").2.1 (by decide)⟩

/-- C3: with include and exclude never both present, a top-level name is
eligible iff, when an include set is present, some pattern matches, and,
when an exclude set is present, no pattern matches, and always when
neither is present; matching is case-insensitive prefix matching, so
`doc` accepts `documentation` but rejects `mydocs`. -/
theorem C3_path_filter (name : String) (inc exc : Option (List String))
    (h : ¬(inc.isSome = true ∧ exc.isSome = true)) :
    (should_include_top_level_dir name inc exc = true ↔
      ((∀ ps, inc = some ps →
          ps.any (fun p => starts_with_pattern name p) = true) ∧
       (∀ ps, exc = some ps →
          ∀ p ∈ ps, starts_with_pattern name p = false))) ∧
    should_include_top_level_dir "documentation" (some ["doc"]) none = true ∧
    should_include_top_level_dir "mydocs" (some ["doc"]) none = false := by
  refine ⟨?_, by decide, by decide⟩
  cases inc with
  | some ps =>
    cases exc with
    | some qs => simp at h
    | none =>
      constructor
      · intro hany
        refine ⟨(fun ps' hps' => ?_), fun qs hqs => by cases hqs⟩
        cases hps'
        simpa [should_include_top_level_dir] using hany
      · rintro ⟨h1, -⟩
        simpa [should_include_top_level_dir] using h1 ps rfl
  | none =>
    cases exc with
    | some qs =>
      constructor
      · intro hnone
        refine ⟨(fun ps' hps' => by cases hps'), fun qs' hqs' p hp => ?_⟩
        cases hqs'
        cases hsw : starts_with_pattern name p
        · rfl
        · exfalso
          have hq : qs.any (fun x => starts_with_pattern name x) = true :=
            List.any_eq_true.mpr ⟨p, hp, hsw⟩
          simp [should_include_top_level_dir, hq] at hnone
      · rintro ⟨-, h2⟩
        have hfalse : qs.any (fun x => starts_with_pattern name x) = false := by
          cases hq : qs.any (fun x => starts_with_pattern name x)
          · rfl
          · exfalso
            obtain ⟨p, hp, hswp⟩ := List.any_eq_true.mp hq
            rw [h2 qs rfl p hp] at hswp
            cases hswp
        simp [should_include_top_level_dir, hfalse]
    | none =>
      constructor
      · intro _
        exact ⟨(fun ps hps => by cases hps), fun qs hqs => by cases hqs⟩
      · intro _
        rfl

/-- C3, witness: the characterization applied to `documentation` with the
include set containing the single pattern `doc`. -/
theorem C3_path_filter_witness :
    ¬((some ["doc"] : Option (List String)).isSome = true ∧
        (none : Option (List String)).isSome = true) ∧
    ((should_include_top_level_dir "documentation" (some ["doc"]) none = true ↔
      ((∀ ps, (some ["doc"] : Option (List String)) = some ps →
          ps.any (fun p => starts_with_pattern "documentation" p) = true) ∧
       (∀ ps, (none : Option (List String)) = some ps →
          ∀ p ∈ ps, starts_with_pattern "documentation" p = false))) ∧
    should_include_top_level_dir "documentation" (some ["doc"]) none = true ∧
    should_include_top_level_dir "mydocs" (some ["doc"]) none = false) :=
  ⟨by decide, C3_path_filter "documentation" (some ["doc"]) none (by decide)⟩

theorem collect_file_summary_eq (maxDepth : Option Nat)
    (inc exc : Option (List String)) (t : FsTree) :
    collect_file_summary maxDepth inc exc t
      = collect_summary_go maxDepth inc exc true 0 none t ⟨0, []⟩ := by
  unfold collect_file_summary
  rw [depth_exceeded_zero]
  simp

theorem flatten_directory_by_traversal_eq (maxDepth : Option Nat)
    (inc exc : Option (List String)) (renameOk : Nat → Bool) (t : FsTree) :
    flatten_directory_by_traversal maxDepth inc exc renameOk t
      = flatten_go maxDepth inc exc renameOk true 0 none t
          ⟨0, tree_names t, [], [], []⟩ := by
  unfold flatten_directory_by_traversal
  rw [depth_exceeded_zero]
  simp

theorem collect_summary_go_root_file (maxDepth : Option Nat)
    (inc exc : Option (List String)) (d : Nat) (tld : Option String)
    (fn : FsName) (rest : FsTree) (s : FileSummary) :
    collect_summary_go maxDepth inc exc true d tld (FsTree.fileCons fn rest) s
      = collect_summary_go maxDepth inc exc true d tld rest s := by
  simp [collect_summary_go]

theorem eligible_files_root_file (maxDepth : Option Nat)
    (inc exc : Option (List String)) (d : Nat) (fn : FsName) (rest : FsTree) :
    eligible_files maxDepth inc exc true d (FsTree.fileCons fn rest)
      = eligible_files maxDepth inc exc true d rest := by
  simp [eligible_files]

/-- Whatever Cleanup removes was recorded by the summary pass. -/
theorem run_removed_sub (maxDepth : Option Nat) (inc exc : Option (List String))
    (renameOk : Nat → Bool) (removeOk : String → Bool) (t : FsTree) :
    ∀ x ∈ (run_rflatten maxDepth inc exc renameOk removeOk t).removed,
      x ∈ (collect_file_summary maxDepth inc exc t).top_level_dirs := by
  intro x hx
  simp only [run_rflatten] at hx
  by_cases h0 : (collect_file_summary maxDepth inc exc t).file_count = 0
  · simp [h0] at hx
  · simp only [h0, if_false] at hx
    rw [cleanup_go_spec] at hx
    exact List.mem_of_mem_filter hx

/-- C2, counterexample: a top-level directory whose name is not valid
Unicode holds a file at level 1; with depth bound 1 the claim calls the
file eligible (it lies strictly below the root at level 1), but the code
counts nothing and attempts no move. -/
theorem C2_counterexample :
    (collect_file_summary (some 1) none none
        (FsTree.dirCons (FsName.invalid 0)
          (FsTree.fileCons (FsName.valid "a") FsTree.nil)
          FsTree.nil)).file_count = 0 ∧
    ((files_with_level 0
        (FsTree.dirCons (FsName.invalid 0)
          (FsTree.fileCons (FsName.valid "a") FsTree.nil)
          FsTree.nil)).filter
        (fun p => decide (1 ≤ p.1 ∧ p.1 ≤ 1))).length = 1 ∧
    (flatten_directory_by_traversal (some 1) none none (fun _ => true)
        (FsTree.dirCons (FsName.invalid 0)
          (FsTree.fileCons (FsName.valid "a") FsTree.nil)
          FsTree.nil)).attempts = [] := by decide

/-- C2, amended: with no filters configured and every top-level directory
name valid Unicode, a file is eligible (counted by the summary pass, and
attempted by the flatten pass) iff it lies strictly below the root and the
level at which it is discovered is at most the bound `D`; with `D = 0` no
file is ever counted. -/
theorem C2_depth_bound (D : Nat) (t : FsTree) (renameOk : Nat → Bool)
    (hval : root_dirs_decodable t = true) :
    (collect_file_summary (some D) none none t).file_count
        = ((files_with_level 0 t).filter
            (fun p => decide (1 ≤ p.1 ∧ p.1 ≤ D))).length ∧
    (flatten_directory_by_traversal (some D) none none renameOk t).attempts
        = ((files_with_level 0 t).filter
            (fun p => decide (1 ≤ p.1 ∧ p.1 ≤ D))).map Prod.snd ∧
    (collect_file_summary (some 0) none none t).file_count = 0 := by
  refine ⟨?_, ?_, ?_⟩
  · rw [collect_file_summary_eq, collect_summary_go_count, eligible_root D t hval]
    simp
  · rw [flatten_directory_by_traversal_eq, flatten_go_attempts,
      eligible_root D t hval]
    simp
  · rw [collect_file_summary_eq, collect_summary_go_count, eligible_root_zero]
    simp

/-- C2, witness: the amended statement applied to the nested test tree with
`D = 1`: exactly the single level-1 file is counted and attempted. -/
theorem C2_depth_bound_witness :
    root_dirs_decodable
        (FsTree.dirCons (FsName.valid "level1")
          (FsTree.fileCons (FsName.valid "file1.txt")
            (FsTree.dirCons (FsName.valid "level2")
              (FsTree.fileCons (FsName.valid "file2.txt") FsTree.nil)
              FsTree.nil))
          FsTree.nil) = true ∧
    ((collect_file_summary (some 1) none none
        (FsTree.dirCons (FsName.valid "level1")
          (FsTree.fileCons (FsName.valid "file1.txt")
            (FsTree.dirCons (FsName.valid "level2")
              (FsTree.fileCons (FsName.valid "file2.txt") FsTree.nil)
              FsTree.nil))
          FsTree.nil)).file_count
        = ((files_with_level 0
            (FsTree.dirCons (FsName.valid "level1")
              (FsTree.fileCons (FsName.valid "file1.txt")
                (FsTree.dirCons (FsName.valid "level2")
                  (FsTree.fileCons (FsName.valid "file2.txt") FsTree.nil)
                  FsTree.nil))
              FsTree.nil)).filter
            (fun p => decide (1 ≤ p.1 ∧ p.1 ≤ 1))).length ∧
      (flatten_directory_by_traversal (some 1) none none (fun _ => true)
          (FsTree.dirCons (FsName.valid "level1")
            (FsTree.fileCons (FsName.valid "file1.txt")
              (FsTree.dirCons (FsName.valid "level2")
                (FsTree.fileCons (FsName.valid "file2.txt") FsTree.nil)
                FsTree.nil))
            FsTree.nil)).attempts
        = ((files_with_level 0
            (FsTree.dirCons (FsName.valid "level1")
              (FsTree.fileCons (FsName.valid "file1.txt")
                (FsTree.dirCons (FsName.valid "level2")
                  (FsTree.fileCons (FsName.valid "file2.txt") FsTree.nil)
                  FsTree.nil))
              FsTree.nil)).filter
            (fun p => decide (1 ≤ p.1 ∧ p.1 ≤ 1))).map Prod.snd ∧
      (collect_file_summary (some 0) none none
          (FsTree.dirCons (FsName.valid "level1")
            (FsTree.fileCons (FsName.valid "file1.txt")
              (FsTree.dirCons (FsName.valid "level2")
                (FsTree.fileCons (FsName.valid "file2.txt") FsTree.nil)
                FsTree.nil))
            FsTree.nil)).file_count = 0) :=
  ⟨by decide,
    C2_depth_bound 1
      (FsTree.dirCons (FsName.valid "level1")
        (FsTree.fileCons (FsName.valid "file1.txt")
          (FsTree.dirCons (FsName.valid "level2")
            (FsTree.fileCons (FsName.valid "file2.txt") FsTree.nil)
            FsTree.nil))
        FsTree.nil)
      (fun _ => true) (by decide)⟩

/-- C4: a top-level directory that fails the path filter is never
descended into: the whole run's summary is as if the directory were
absent, the flatten pass attempts exactly the same source files, and —
provided no other eligible top-level directory shares its name, which a
real file system guarantees — its name is neither recorded in the
top-level-directory set nor ever removed by Cleanup. -/
theorem C4_subtree_skip (maxDepth : Option Nat) (inc exc : Option (List String))
    (renameOk : Nat → Bool) (removeOk : String → Bool) (n : String)
    (children t₁ t₂ : FsTree)
    (hn : should_include_top_level_dir n inc exc = false) :
    collect_file_summary maxDepth inc exc
        (t₁.append (FsTree.dirCons (FsName.valid n) children t₂))
      = collect_file_summary maxDepth inc exc (t₁.append t₂) ∧
    (flatten_directory_by_traversal maxDepth inc exc renameOk
        (t₁.append (FsTree.dirCons (FsName.valid n) children t₂))).attempts
      = (flatten_directory_by_traversal maxDepth inc exc renameOk
          (t₁.append t₂)).attempts ∧
    (n ∉ (collect_file_summary maxDepth inc exc (t₁.append t₂)).top_level_dirs →
      n ∉ (collect_file_summary maxDepth inc exc
            (t₁.append (FsTree.dirCons (FsName.valid n) children t₂))).top_level_dirs ∧
      n ∉ (run_rflatten maxDepth inc exc renameOk removeOk
            (t₁.append (FsTree.dirCons (FsName.valid n) children t₂))).removed) := by
  have hsum :
      collect_file_summary maxDepth inc exc
          (t₁.append (FsTree.dirCons (FsName.valid n) children t₂))
        = collect_file_summary maxDepth inc exc (t₁.append t₂) := by
    rw [collect_file_summary_eq, collect_file_summary_eq,
      collect_summary_go_append, collect_summary_go_append,
      collect_summary_go_skip maxDepth inc exc 0 none n children t₂ _ hn]
  refine ⟨hsum, ?_, ?_⟩
  · rw [flatten_directory_by_traversal_eq, flatten_directory_by_traversal_eq,
      flatten_go_attempts, flatten_go_attempts,
      eligible_files_append, eligible_files_append,
      eligible_files_skip maxDepth inc exc 0 n children t₂ hn]
  · intro hmem
    refine ⟨by rw [hsum]; exact hmem, ?_⟩
    intro hrem
    exact hmem (hsum ▸ run_removed_sub maxDepth inc exc renameOk removeOk _ n hrem)

/-- C4, witness: with include pattern `src`, the top-level directory
`docs` is skipped whole: the summary, the attempted moves, the recorded
set and the removed set are those of the tree without `docs`. -/
theorem C4_subtree_skip_witness :
    should_include_top_level_dir "docs" (some ["src"]) none = false ∧
    (collect_file_summary none (some ["src"]) none
        (FsTree.nil.append (FsTree.dirCons (FsName.valid "docs")
          (FsTree.fileCons (FsName.valid "guide.txt") FsTree.nil)
          (FsTree.dirCons (FsName.valid "src")
            (FsTree.fileCons (FsName.valid "main.rs") FsTree.nil) FsTree.nil)))
      = collect_file_summary none (some ["src"]) none
          (FsTree.nil.append (FsTree.dirCons (FsName.valid "src")
            (FsTree.fileCons (FsName.valid "main.rs") FsTree.nil) FsTree.nil)) ∧
    (flatten_directory_by_traversal none (some ["src"]) none (fun _ => true)
        (FsTree.nil.append (FsTree.dirCons (FsName.valid "docs")
          (FsTree.fileCons (FsName.valid "guide.txt") FsTree.nil)
          (FsTree.dirCons (FsName.valid "src")
            (FsTree.fileCons (FsName.valid "main.rs") FsTree.nil) FsTree.nil)))).attempts
      = (flatten_directory_by_traversal none (some ["src"]) none (fun _ => true)
          (FsTree.nil.append (FsTree.dirCons (FsName.valid "src")
            (FsTree.fileCons (FsName.valid "main.rs") FsTree.nil) FsTree.nil))).attempts ∧
    ("docs" ∉ (collect_file_summary none (some ["src"]) none
          (FsTree.nil.append (FsTree.dirCons (FsName.valid "src")
            (FsTree.fileCons (FsName.valid "main.rs") FsTree.nil) FsTree.nil))).top_level_dirs →
      "docs" ∉ (collect_file_summary none (some ["src"]) none
            (FsTree.nil.append (FsTree.dirCons (FsName.valid "docs")
              (FsTree.fileCons (FsName.valid "guide.txt") FsTree.nil)
              (FsTree.dirCons (FsName.valid "src")
                (FsTree.fileCons (FsName.valid "main.rs") FsTree.nil)
                FsTree.nil)))).top_level_dirs ∧
      "docs" ∉ (run_rflatten none (some ["src"]) none (fun _ => true) (fun _ => true)
            (FsTree.nil.append (FsTree.dirCons (FsName.valid "docs")
              (FsTree.fileCons (FsName.valid "guide.txt") FsTree.nil)
              (FsTree.dirCons (FsName.valid "src")
                (FsTree.fileCons (FsName.valid "main.rs") FsTree.nil)
                FsTree.nil)))).removed)) :=
  ⟨by decide,
    C4_subtree_skip none (some ["src"]) none (fun _ => true) (fun _ => true)
      "docs" (FsTree.fileCons (FsName.valid "guide.txt") FsTree.nil)
      FsTree.nil
      (FsTree.dirCons (FsName.valid "src")
        (FsTree.fileCons (FsName.valid "main.rs") FsTree.nil) FsTree.nil)
      (by decide)⟩

/-- C5: Cleanup operates on exactly the set of top-level directory names
recorded by the summary pass: a name is removed iff it was recorded,
still names a directory directly under the root, and its recursive
removal succeeds — irrespective of any contents left inside (the
existence test never inspects contents) and of failures on other
recorded names, which are logged and skipped. -/
theorem C5_cleanup (maxDepth : Option Nat) (inc exc : Option (List String))
    (renameOk : Nat → Bool) (removeOk : String → Bool) (t : FsTree) :
    (run_rflatten maxDepth inc exc renameOk removeOk t).removed
      = ((collect_file_summary maxDepth inc exc t).top_level_dirs).filter
          (fun d => root_has_dir t d && removeOk d) ∧
    (run_rflatten maxDepth inc exc renameOk removeOk t).cleanup_errors
      = ((collect_file_summary maxDepth inc exc t).top_level_dirs).filter
          (fun d => root_has_dir t d && !removeOk d) ∧
    ∀ x ∈ (run_rflatten maxDepth inc exc renameOk removeOk t).removed,
      x ∈ (collect_file_summary maxDepth inc exc t).top_level_dirs := by
  refine ⟨?_, ?_, run_removed_sub maxDepth inc exc renameOk removeOk t⟩ <;>
    simp only [run_rflatten] <;>
    by_cases h0 : (collect_file_summary maxDepth inc exc t).file_count = 0
  · have hdirs := collect_file_summary_dirs_of_count_zero maxDepth inc exc t h0
    simp [h0, hdirs]
  · simp only [h0, if_false]
    rw [cleanup_go_spec]
  · have hdirs := collect_file_summary_dirs_of_count_zero maxDepth inc exc t h0
    simp [h0, hdirs]
  · simp only [h0, if_false]
    rw [cleanup_go_spec]

/-- C6: the summary pass and the flatten pass traverse with the same
eligibility decisions: for every tree, depth bound and filter
configuration, the pre-flight file count equals the number of files the
flatten pass attempts to move. -/
theorem C6_pass_agreement (maxDepth : Option Nat) (inc exc : Option (List String))
    (renameOk : Nat → Bool) (t : FsTree) :
    (collect_file_summary maxDepth inc exc t).file_count
      = (flatten_directory_by_traversal maxDepth inc exc renameOk t).attempts.length := by
  rw [collect_file_summary_eq, flatten_directory_by_traversal_eq,
    collect_summary_go_count, flatten_go_attempts]
  simp

/-- C7: per-file move errors are recoverable: the flatten pass returns the
count of the successful renames only, logs the source of every failed
rename to the error stream, and the set of files it processes does not
depend on the outcomes at all — a failed move never stops the run. -/
theorem C7_move_errors (maxDepth : Option Nat) (inc exc : Option (List String))
    (renameOk : Nat → Bool) (t : FsTree) :
    (flatten_directory_by_traversal maxDepth inc exc renameOk t).moved_count
        = ((List.range
            (flatten_directory_by_traversal maxDepth inc exc renameOk t).attempts.length).filter
            (fun i => renameOk i)).length ∧
    (flatten_directory_by_traversal maxDepth inc exc renameOk t).errors
        = failed_of renameOk 0
            (flatten_directory_by_traversal maxDepth inc exc renameOk t).attempts ∧
    ∀ renameOk₂ : Nat → Bool,
      (flatten_directory_by_traversal maxDepth inc exc renameOk₂ t).attempts
        = (flatten_directory_by_traversal maxDepth inc exc renameOk t).attempts := by
  have hlog := flatten_go_log maxDepth inc exc renameOk t true 0 none
    ⟨0, tree_names t, [], [], []⟩ (by simp) rfl
  refine ⟨?_, ?_, ?_⟩
  · rw [flatten_directory_by_traversal_eq]
    exact hlog.1
  · rw [flatten_directory_by_traversal_eq]
    exact hlog.2
  · intro renameOk₂
    rw [flatten_directory_by_traversal_eq, flatten_directory_by_traversal_eq,
      flatten_go_attempts, flatten_go_attempts]

/-- C8: a file sitting directly in the root is never counted, never
attempted as a move source, keeps existing in the root, and is never the
destination of any move either (every resolved destination is fresh). -/
theorem C8_root_files (maxDepth : Option Nat) (inc exc : Option (List String))
    (renameOk : Nat → Bool) (fn : FsName) (t₁ t₂ : FsTree) :
    collect_file_summary maxDepth inc exc (t₁.append (FsTree.fileCons fn t₂))
      = collect_file_summary maxDepth inc exc (t₁.append t₂) ∧
    (flatten_directory_by_traversal maxDepth inc exc renameOk
        (t₁.append (FsTree.fileCons fn t₂))).attempts
      = (flatten_directory_by_traversal maxDepth inc exc renameOk
          (t₁.append t₂)).attempts ∧
    fn ∈ (flatten_directory_by_traversal maxDepth inc exc renameOk
        (t₁.append (FsTree.fileCons fn t₂))).root_names ∧
    ∀ p ∈ (flatten_directory_by_traversal maxDepth inc exc renameOk
        (t₁.append (FsTree.fileCons fn t₂))).moves, p.2 ≠ fn := by
  have hmem : fn ∈ tree_names (t₁.append (FsTree.fileCons fn t₂)) := by
    rw [tree_names_append]
    exact List.mem_append_right _ (List.mem_cons_self fn _)
  refine ⟨?_, ?_, ?_, ?_⟩
  · rw [collect_file_summary_eq, collect_file_summary_eq,
      collect_summary_go_append, collect_summary_go_append,
      collect_summary_go_root_file]
  · rw [flatten_directory_by_traversal_eq, flatten_directory_by_traversal_eq,
      flatten_go_attempts, flatten_go_attempts,
      eligible_files_append, eligible_files_append, eligible_files_root_file]
  · rw [flatten_directory_by_traversal_eq]
    exact flatten_go_root_names_mono maxDepth inc exc renameOk _ true 0 none
      ⟨0, tree_names (t₁.append (FsTree.fileCons fn t₂)), [], [], []⟩ fn hmem
  · rw [flatten_directory_by_traversal_eq]
    exact flatten_go_moves_avoid maxDepth inc exc renameOk fn _ true 0 none
      ⟨0, tree_names (t₁.append (FsTree.fileCons fn t₂)), [], [], []⟩ hmem
      (by intro p hp; cases hp)

/-- C9: on a root with no subdirectory at all, the whole run is a no-op:
the summary finds nothing and records nothing, the flatten pass attempts
and moves nothing, and the run removes no directory. -/
theorem C9_flat_noop (maxDepth : Option Nat) (inc exc : Option (List String))
    (renameOk : Nat → Bool) (removeOk : String → Bool) (t : FsTree)
    (hflat : root_has_no_dir t = true) :
    (collect_file_summary maxDepth inc exc t).file_count = 0 ∧
    (collect_file_summary maxDepth inc exc t).top_level_dirs = [] ∧
    (flatten_directory_by_traversal maxDepth inc exc renameOk t).moved_count = 0 ∧
    (flatten_directory_by_traversal maxDepth inc exc renameOk t).attempts = [] ∧
    run_rflatten maxDepth inc exc renameOk removeOk t = ⟨0, [], []⟩ := by
  have helig := eligible_files_root_no_dir maxDepth inc exc 0 t hflat
  have hcount : (collect_file_summary maxDepth inc exc t).file_count = 0 := by
    rw [collect_file_summary_eq, collect_summary_go_count, helig]
    simp
  have hattempts :
      (flatten_directory_by_traversal maxDepth inc exc renameOk t).attempts = [] := by
    rw [flatten_directory_by_traversal_eq, flatten_go_attempts, helig]
    simp
  have hmoved :
      (flatten_directory_by_traversal maxDepth inc exc renameOk t).moved_count = 0 := by
    have hlog := flatten_go_log maxDepth inc exc renameOk t true 0 none
      ⟨0, tree_names t, [], [], []⟩ (by simp) rfl
    rw [flatten_directory_by_traversal_eq] at hattempts ⊢
    rw [hlog.1, hattempts]
    simp
  refine ⟨hcount, collect_file_summary_dirs_of_count_zero maxDepth inc exc t hcount,
    hmoved, hattempts, ?_⟩
  simp [run_rflatten, hcount]

/-- C9, witness: a root holding a single file and no subdirectory. -/
theorem C9_flat_noop_witness :
    root_has_no_dir (FsTree.fileCons (FsName.valid "a.txt") FsTree.nil) = true ∧
    ((collect_file_summary none none none
        (FsTree.fileCons (FsName.valid "a.txt") FsTree.nil)).file_count = 0 ∧
      (collect_file_summary none none none
        (FsTree.fileCons (FsName.valid "a.txt") FsTree.nil)).top_level_dirs = [] ∧
      (flatten_directory_by_traversal none none none (fun _ => true)
        (FsTree.fileCons (FsName.valid "a.txt") FsTree.nil)).moved_count = 0 ∧
      (flatten_directory_by_traversal none none none (fun _ => true)
        (FsTree.fileCons (FsName.valid "a.txt") FsTree.nil)).attempts = [] ∧
      run_rflatten none none none (fun _ => true) (fun _ => true)
        (FsTree.fileCons (FsName.valid "a.txt") FsTree.nil) = ⟨0, [], []⟩) :=
  ⟨by decide,
    C9_flat_noop none none none (fun _ => true) (fun _ => true)
      (FsTree.fileCons (FsName.valid "a.txt") FsTree.nil) (by decide)⟩

/-- C10: a top-level directory whose name is not valid Unicode is skipped
silently in both passes: the summary, the attempted move sources and the
entire observable run outcome (moved count, removed directories, cleanup
failures) are those of the tree without that directory; in particular
nothing beneath it is counted or moved, its name is never recorded, and it
is never deleted. -/
theorem C10_invalid_tld (maxDepth : Option Nat) (inc exc : Option (List String))
    (renameOk : Nat → Bool) (removeOk : String → Bool) (i : Nat)
    (children t₁ t₂ : FsTree) :
    collect_file_summary maxDepth inc exc
        (t₁.append (FsTree.dirCons (FsName.invalid i) children t₂))
      = collect_file_summary maxDepth inc exc (t₁.append t₂) ∧
    (flatten_directory_by_traversal maxDepth inc exc renameOk
        (t₁.append (FsTree.dirCons (FsName.invalid i) children t₂))).attempts
      = (flatten_directory_by_traversal maxDepth inc exc renameOk
          (t₁.append t₂)).attempts ∧
    run_rflatten maxDepth inc exc renameOk removeOk
        (t₁.append (FsTree.dirCons (FsName.invalid i) children t₂))
      = run_rflatten maxDepth inc exc renameOk removeOk (t₁.append t₂) := by
  have hsum :
      collect_file_summary maxDepth inc exc
          (t₁.append (FsTree.dirCons (FsName.invalid i) children t₂))
        = collect_file_summary maxDepth inc exc (t₁.append t₂) := by
    rw [collect_file_summary_eq, collect_file_summary_eq,
      collect_summary_go_append, collect_summary_go_append,
      collect_summary_go_skip_invalid]
  have hatt :
      (flatten_directory_by_traversal maxDepth inc exc renameOk
          (t₁.append (FsTree.dirCons (FsName.invalid i) children t₂))).attempts
        = (flatten_directory_by_traversal maxDepth inc exc renameOk
            (t₁.append t₂)).attempts := by
    rw [flatten_directory_by_traversal_eq, flatten_directory_by_traversal_eq,
      flatten_go_attempts, flatten_go_attempts,
      eligible_files_append, eligible_files_append, eligible_files_skip_invalid]
  have hroot : ∀ d, root_has_dir
        (t₁.append (FsTree.dirCons (FsName.invalid i) children t₂)) d
      = root_has_dir (t₁.append t₂) d := by
    intro d
    rw [root_has_dir_append, root_has_dir_append]
    rfl
  have hmoved :
      (flatten_directory_by_traversal maxDepth inc exc renameOk
          (t₁.append (FsTree.dirCons (FsName.invalid i) children t₂))).moved_count
        = (flatten_directory_by_traversal maxDepth inc exc renameOk
            (t₁.append t₂)).moved_count := by
    have h1 := flatten_go_log maxDepth inc exc renameOk
      (t₁.append (FsTree.dirCons (FsName.invalid i) children t₂)) true 0 none
      ⟨0, tree_names (t₁.append (FsTree.dirCons (FsName.invalid i) children t₂)),
        [], [], []⟩ (by simp) rfl
    have h2 := flatten_go_log maxDepth inc exc renameOk (t₁.append t₂) true 0 none
      ⟨0, tree_names (t₁.append t₂), [], [], []⟩ (by simp) rfl
    rw [flatten_directory_by_traversal_eq, flatten_directory_by_traversal_eq] at hatt ⊢
    rw [h1.1, h2.1, hatt]
  refine ⟨hsum, hatt, ?_⟩
  simp only [run_rflatten, hsum]
  by_cases h0 : (collect_file_summary maxDepth inc exc (t₁.append t₂)).file_count = 0
  · simp [h0]
  · simp only [h0, if_false]
    rw [cleanup_go_spec, cleanup_go_spec, hmoved]
    have hfilter₁ :
        ((collect_file_summary maxDepth inc exc (t₁.append t₂)).top_level_dirs).filter
            (fun d => root_has_dir
              (t₁.append (FsTree.dirCons (FsName.invalid i) children t₂)) d
              && removeOk d)
          = ((collect_file_summary maxDepth inc exc (t₁.append t₂)).top_level_dirs).filter
              (fun d => root_has_dir (t₁.append t₂) d && removeOk d) := by
      apply List.filter_congr
      intro d _
      rw [hroot d]
    have hfilter₂ :
        ((collect_file_summary maxDepth inc exc (t₁.append t₂)).top_level_dirs).filter
            (fun d => root_has_dir
              (t₁.append (FsTree.dirCons (FsName.invalid i) children t₂)) d
              && !removeOk d)
          = ((collect_file_summary maxDepth inc exc (t₁.append t₂)).top_level_dirs).filter
              (fun d => root_has_dir (t₁.append t₂) d && !removeOk d) := by
      apply List.filter_congr
      intro d _
      rw [hroot d]
    rw [hfilter₁, hfilter₂]

/-- C5, witness: the characterization of Cleanup applied to a concrete
root holding `test.txt` and a subdirectory `subdir` with a colliding
file. -/
theorem C5_cleanup_witness :
    (run_rflatten none none none (fun _ => true) (fun _ => true)
        (FsTree.fileCons (FsName.valid "test.txt")
          (FsTree.dirCons (FsName.valid "subdir")
            (FsTree.fileCons (FsName.valid "test.txt") FsTree.nil)
            FsTree.nil))).removed
      = ((collect_file_summary none none none
          (FsTree.fileCons (FsName.valid "test.txt")
            (FsTree.dirCons (FsName.valid "subdir")
              (FsTree.fileCons (FsName.valid "test.txt") FsTree.nil)
              FsTree.nil))).top_level_dirs).filter
          (fun d => root_has_dir
              (FsTree.fileCons (FsName.valid "test.txt")
                (FsTree.dirCons (FsName.valid "subdir")
                  (FsTree.fileCons (FsName.valid "test.txt") FsTree.nil)
                  FsTree.nil)) d
            && (fun _ => true) d) :=
  (C5_cleanup none none none (fun _ => true) (fun _ => true)
    (FsTree.fileCons (FsName.valid "test.txt")
      (FsTree.dirCons (FsName.valid "subdir")
        (FsTree.fileCons (FsName.valid "test.txt") FsTree.nil)
        FsTree.nil))).1

/-- C8, witness: the frame statement applied to a concrete root file
`test.txt` next to a subdirectory holding a file of the same name. -/
theorem C8_root_files_witness :
    collect_file_summary none none none
        (FsTree.nil.append (FsTree.fileCons (FsName.valid "test.txt")
          (FsTree.dirCons (FsName.valid "subdir")
            (FsTree.fileCons (FsName.valid "test.txt") FsTree.nil)
            FsTree.nil)))
      = collect_file_summary none none none
          (FsTree.nil.append (FsTree.dirCons (FsName.valid "subdir")
            (FsTree.fileCons (FsName.valid "test.txt") FsTree.nil)
            FsTree.nil)) ∧
    ∀ p ∈ (flatten_directory_by_traversal none none none (fun _ => true)
        (FsTree.nil.append (FsTree.fileCons (FsName.valid "test.txt")
          (FsTree.dirCons (FsName.valid "subdir")
            (FsTree.fileCons (FsName.valid "test.txt") FsTree.nil)
            FsTree.nil)))).moves, p.2 ≠ FsName.valid "test.txt" :=
  ⟨(C8_root_files none none none (fun _ => true) (FsName.valid "test.txt")
      FsTree.nil
      (FsTree.dirCons (FsName.valid "subdir")
        (FsTree.fileCons (FsName.valid "test.txt") FsTree.nil)
        FsTree.nil)).1,
    (C8_root_files none none none (fun _ => true) (FsName.valid "test.txt")
      FsTree.nil
      (FsTree.dirCons (FsName.valid "subdir")
        (FsTree.fileCons (FsName.valid "test.txt") FsTree.nil)
        FsTree.nil)).2.2.2⟩
